import Mathlib

/-!
# Verification of the uploadR2 identity/allocation subsystem

Shallow embedding of the core of the `uploadR2` repository:

* `src/utils/hash_utils.py`   — content identity (hashing, UUID formatting)
* `src/database/short_key_generator.py` — short-key allocator
* `src/database/database_manager.py`    — file registry (insert retry, schema lifecycle)
* `src/database/schema.py`    — schema constants and triggers
* `src/r2_uploader.py`        — upload orchestration (duplicate short-circuit, retry/backoff)

Python functions are translated into executable Lean definitions; SQLite state
is modelled as explicit lists of rows; randomness (`secrets`, `hash`) and the
external object store are modelled as oracle parameters.  Numeric threshold
comparisons that the source performs on IEEE doubles
(`usage_ratio < 0.80`, `< 0.85`) are embedded as exact rational comparisons by
cross-multiplication, which agrees with the source for all representable row
counts used by the program.
-/

namespace UploadR2

/-! ## Definitions: ContentIdentity (`src/utils/hash_utils.py`) -/

/-- `HashUtils.hash_to_uuid`, padding step: take the first 32 characters of the
hex digest, right-padding with `'0'` when the digest is shorter than 32. -/
def padded32 (d : List Char) : List Char :=
  if d.length < 32 then d ++ List.replicate (32 - d.length) '0' else d.take 32

/-- `HashUtils.hash_to_uuid`: format the (padded) first 32 hex characters as a
dashed 8-4-4-4-12 identifier. -/
def hash_to_uuid (s : String) : String :=
  let h := padded32 s.data
  String.mk (h.take 8 ++ '-' :: (h.drop 8).take 4 ++ '-' :: (h.drop 12).take 4 ++
    '-' :: (h.drop 16).take 4 ++ '-' :: (h.drop 20).take 12)

/-- Error type for the embedded `calculate_file_hash`; the source logs and
returns `None` on failure, so this constructor is in fact never produced. -/
inductive HashErr where
  | ioError : String → HashErr
deriving DecidableEq, Repr

/-- The `f.read(8192)` loop of `HashUtils.calculate_file_hash`: split the file
content into successive chunks of (at most) 8192 bytes. -/
def chunkList (l : List Nat) : List (List Nat) :=
  if h : l = [] then [] else l.take 8192 :: chunkList (l.drop 8192)
termination_by l.length
decreasing_by
  simp only [List.length_drop]
  have hl : 0 < l.length := List.length_pos.mpr h
  omega

/-- `HashUtils.calculate_file_hash`.  A file is `none` when it cannot be
opened/read; `some content` gives its bytes.  The incremental hasher
(`hashlib.new(algorithm)`) is modelled by its accumulated input, with
`hexdigest` given by the oracle `H`; `hash_obj.update(chunk)` appends the chunk
to the accumulated input.  The source wraps the whole body in
`try: ... except Exception: return None`, so an unreadable file yields a
normal `None` return, never an exception. -/
def calculate_file_hash (H : List Nat → String) (file : Option (List Nat)) :
    Except HashErr (Option String) :=
  match file with
  | none => Except.ok none
  | some content =>
      Except.ok (some (H ((chunkList content).foldl (fun acc ch => acc ++ ch) [])))

/-! ## Definitions: ShortKeyAllocator (`src/database/short_key_generator.py`) -/

/-- `ShortKeyGenerator.CHARSET = string.digits + string.ascii_lowercase +
string.ascii_uppercase` (62 characters, in that order). -/
def CHARSET : List Char :=
  "0123456789abcdefghijklmnopqrstuvwxyzABCDEFGHIJKLMNOPQRSTUVWXYZ".data

/-- One row of the `short_key_sequences` table. -/
structure SeqRow where
  keyLength : Nat
  currentSequence : Nat
  maxPossible : Nat
  exhausted : Bool
deriving DecidableEq, Repr

/-- One row of the `file_records` table (the columns relevant to identity and
key allocation). -/
structure FRecord where
  uuidKey : String
  sha512Hash : String
  shortKey : Option String
  status : String
deriving DecidableEq, Repr

/-- Database state seen by the short-key generator. -/
structure GenState where
  sequences : List SeqRow
  reserved : List String
  records : List FRecord
deriving DecidableEq, Repr

/-- `ShortKeyGenerator._generate_key_with_length`.  For each position `i` the
source computes `seed_hash = hash(position_seed) % 2**32`, draws
`random_int = int.from_bytes(secrets.token_bytes(4), 'big')`, and indexes
`CHARSET[(seed_hash ^ random_int) % len(CHARSET)]`.  `seedHash i` and
`randomBytes i` are the two per-position sources (already reduced mod `2^32`
below, mirroring the source). -/
def generate_key_with_length (length : Nat) (seedHash randomBytes : Nat → Nat) : String :=
  String.mk ((List.range length).map (fun i =>
    let combined := ((seedHash i % 2 ^ 32) ^^^ (randomBytes i % 2 ^ 32)) % CHARSET.length
    CHARSET.getD combined ' '))

/-- `ShortKeyGenerator._calculate_max_possible`:
`int(len(CHARSET) ** length * (1 - 0.001))`.  The source computes this in
floating point; the exact integer value agrees for the small lengths in
actual use and no claim depends on the low-order digits. -/
def calculate_max_possible (length : Nat) : Nat :=
  62 ^ length * 999 / 1000

/-- `ShortKeyGenerator._is_reserved_key`: membership in `reserved_short_keys`. -/
def is_reserved_key (st : GenState) (k : String) : Bool :=
  st.reserved.contains k

/-- `ShortKeyGenerator._key_exists`:
`SELECT 1 FROM file_records WHERE short_key = ?` — no status filter, so
records of every status (active, deleted, archived) count. -/
def key_exists (st : GenState) (k : String) : Bool :=
  st.records.any (fun r => r.shortKey == some k)

/-- `DatabaseManager.check_short_key_exists`:
`SELECT 1 FROM file_records WHERE short_key = ? AND status = 'active'` —
unlike `_key_exists` this filters on active status. -/
def check_short_key_exists (st : GenState) (k : String) : Bool :=
  st.records.any (fun r => r.shortKey == some k && r.status == "active")

/-- `ShortKeyGenerator._create_new_length_sequence`: `INSERT OR IGNORE` of a
fresh `(length, 0, max_possible)` row. -/
def create_new_length_sequence (rows : List SeqRow) (length : Nat) : List SeqRow :=
  if rows.any (fun r => r.keyLength == length) then rows
  else rows ++ [⟨length, 0, calculate_max_possible length, false⟩]

/-- `ShortKeyGenerator._increment_sequence`, including the schema trigger
`check_sequence_exhaustion` (`AFTER UPDATE ... WHEN NEW.current_sequence >=
NEW.max_possible` sets `exhausted = TRUE`). -/
def increment_sequence (rows : List SeqRow) (length : Nat) : List SeqRow :=
  rows.map (fun r =>
    if r.keyLength == length then
      let c := r.currentSequence + 1
      { r with currentSequence := c, exhausted := r.exhausted || decide (r.maxPossible ≤ c) }
    else r)

/-- Mark the given lengths `exhausted` (the `UPDATE short_key_sequences SET
exhausted = TRUE WHERE key_length = ?` statements issued during the scan). -/
def mark_exhausted (rows : List SeqRow) (marked : List Nat) : List SeqRow :=
  rows.map (fun r => if marked.contains r.keyLength then { r with exhausted := true } else r)

/-- `SELECT MAX(key_length) FROM short_key_sequences` (0 encodes SQL `NULL`
for the empty table; the caller's `row[0] if row and row[0] else 3` treats
both alike). -/
def max_key_length (rows : List SeqRow) : Nat :=
  rows.foldr (fun r m => max r.keyLength m) 0

/-- The scan loop of `_get_current_length` over the non-exhausted rows in
ascending `key_length` order.  Returns the selected `(length, nearCapacity)`
(the flag records the 80–85 % "near capacity" warning branch) and the list of
lengths marked exhausted before the selection.  The source's float comparisons
`usage_ratio < 0.80` and `usage_ratio < 0.85` are embedded as the exact
cross-multiplied comparisons `current * 5 < max * 4` and
`current * 20 < max * 17`. -/
def scan_select : List SeqRow → Option (Nat × Bool) × List Nat
  | [] => (none, [])
  | r :: rest =>
    if r.currentSequence * 5 < r.maxPossible * 4 then (some (r.keyLength, false), [])
    else if r.currentSequence * 20 < r.maxPossible * 17 then (some (r.keyLength, true), [])
    else
      let (sel, m) := scan_select rest
      (sel, r.keyLength :: m)

/-- `ShortKeyGenerator._get_current_length`.  The SQL query returns the
non-exhausted rows ascending by `key_length` (the state keeps rows in that
order); scanning selects a length of usage ratio < 0.85 and marks every
ratio-≥-0.85 row it passes as exhausted.  When no row qualifies, the next
length `MAX(key_length) + 1` (default base 3) is created — with no ceiling
check on this path. -/
def get_current_length (rows : List SeqRow) : Nat × List SeqRow :=
  let cands := rows.filter (fun r => !r.exhausted)
  match scan_select cands with
  | (some (l, _), marked) => (l, mark_exhausted rows marked)
  | (none, marked) =>
      let rows' := mark_exhausted rows marked
      let m := max_key_length rows'
      let base := if m = 0 then 3 else m
      let next := base + 1
      (next, create_new_length_sequence rows' next)

/-- The candidate loop of `generate_short_key` / `_upgrade_to_next_length`:
up to `fuel` (= 100) attempts; a candidate is rejected when reserved or when
already present on any file record; the first free candidate is returned. -/
def find_free_key (st : GenState) (gen : Nat → String) (attempt fuel : Nat) : Option String :=
  match fuel with
  | 0 => none
  | fuel' + 1 =>
      let k := gen attempt
      if is_reserved_key st k then find_free_key st gen (attempt + 1) fuel'
      else if key_exists st k then find_free_key st gen (attempt + 1) fuel'
      else some k

/-- Errors raised by the allocator: `ShortKeyExhaustedError` /
`ShortKeyCollisionError`. -/
inductive MintError where
  | exhausted
  | collision
deriving DecidableEq, Repr

/-- `ShortKeyGenerator._upgrade_to_next_length`.  `max_allowed_length` is the
hardcoded local constant `12`; when the current maximum existing length
already reaches it, `ShortKeyExhaustedError` is raised.  Otherwise the next
length is created and 100 candidates are attempted there (`sh`/`rb` are the
randomness oracles of `_generate_key_with_length`, indexed by attempt then
position). -/
def upgrade_to_next_length (sh rb : Nat → Nat → Nat) (st : GenState) :
    Except MintError (String × Nat) × GenState :=
  let m := max_key_length st.sequences
  let base := if m = 0 then 3 else m
  if 12 ≤ base then (Except.error MintError.exhausted, st)
  else
    let next := base + 1
    let st1 : GenState := { st with sequences := create_new_length_sequence st.sequences next }
    match find_free_key st1 (fun a => generate_key_with_length next (sh a) (rb a)) 0 100 with
    | some k =>
        (Except.ok (k, next), { st1 with sequences := increment_sequence st1.sequences next })
    | none => (Except.error MintError.collision, st1)

/-- `ShortKeyGenerator.generate_short_key` (the salt is threaded through the
randomness oracles and omitted from the return value).  Phase 1: pick the
active length and try 100 candidates; phase 2 on failure:
`_upgrade_to_next_length`.  `sh1`/`rb1` and `sh2`/`rb2` are the per-phase
randomness oracles. -/
def generate_short_key (sh1 rb1 sh2 rb2 : Nat → Nat → Nat) (st : GenState) :
    Except MintError (String × Nat) × GenState :=
  let (len, seqs) := get_current_length st.sequences
  let st1 : GenState := { st with sequences := seqs }
  match find_free_key st1 (fun a => generate_key_with_length len (sh1 a) (rb1 a)) 0 100 with
  | some k =>
      (Except.ok (k, len), { st1 with sequences := increment_sequence st1.sequences len })
  | none => upgrade_to_next_length sh2 rb2 st1

/-- A length `L` has an exhausted sequence row in `rows`. -/
def exhaustedAt (rows : List SeqRow) (L : Nat) : Prop :=
  ∃ r ∈ rows, r.keyLength = L ∧ r.exhausted = true

/-! ## Definitions: FileRegistry insert (`DatabaseManager.store_file_record`) -/

/-- Which uniqueness constraint an insert violates.  SQLite reports a single
column in the `IntegrityError` message; the implicit unique indexes are
checked in column order (`uuid_key`, `short_key`, `sha512_hash`). -/
inductive ConflictCol where
  | uuidKey
  | shortKey
  | sha512Hash
deriving DecidableEq, Repr

/-- Outcome of the `INSERT INTO file_records ...` against the current rows.
A `NULL` short key never conflicts (SQLite `UNIQUE` admits multiple NULLs). -/
def insert_conflict (records : List FRecord) (rec : FRecord) : Option ConflictCol :=
  if records.any (fun r => r.uuidKey == rec.uuidKey) then some ConflictCol.uuidKey
  else if (match rec.shortKey with
           | some k => records.any (fun r => r.shortKey == some k)
           | none => false) then some ConflictCol.shortKey
  else if records.any (fun r => r.sha512Hash == rec.sha512Hash) then some ConflictCol.sha512Hash
  else none

/-- Result of `store_file_record`: `DuplicateFileError` on identity/hash
conflict; `DatabaseError` ("短檔名生成失敗…", the spec's `AllocationFailed`)
when the short-key retry budget is exhausted. -/
inductive StoreResult where
  | ok (stored : FRecord)
  | duplicateFile (conflicting : String)
  | allocationFailed (lastKey : String)
deriving DecidableEq, Repr

/-- `DatabaseManager.store_file_record`.  `mints n` is the short key produced
by the mint call made on the attempt with `_retry_count = n` (the generator
itself is modelled separately; here it is an oracle).  `retryCount` is the
record's `_retry_count` attribute (0 at the initial public call).  On a
short-key-only conflict the record's key is cleared, `_retry_count`
incremented, and the whole insert re-entered recursively; at
`_retry_count >= 3` the error surfaces instead.  Returns the resulting rows,
the result, and the total number of insert attempts performed. -/
def store_file_record (mints : Nat → String) (records : List FRecord) (rec : FRecord)
    (retryCount : Nat) : List FRecord × StoreResult × Nat :=
  let key := match rec.shortKey with
    | some k => some k
    | none => some (mints retryCount)
  let rec' := { rec with shortKey := key }
  match insert_conflict records rec' with
  | none => (records ++ [rec'], StoreResult.ok rec', 1)
  | some ConflictCol.uuidKey => (records, StoreResult.duplicateFile rec'.uuidKey, 1)
  | some ConflictCol.sha512Hash => (records, StoreResult.duplicateFile rec'.sha512Hash, 1)
  | some ConflictCol.shortKey =>
      if h : 3 ≤ retryCount then
        (records, StoreResult.allocationFailed (rec'.shortKey.getD ""), 1)
      else
        let r := store_file_record mints records { rec with shortKey := none } (retryCount + 1)
        (r.1, r.2.1, r.2.2 + 1)
termination_by 4 - retryCount
decreasing_by omega

/-! ## Definitions: UploadOrchestrator (`src/r2_uploader.py`) -/

/-- Behavior of one `_do_upload` call: an ordinary return `(success, message)`
or a raised exception. -/
inductive AttemptOutcome where
  | ret (success : Bool) (message : String)
  | exc (err : String)
deriving DecidableEq, Repr

/-- The final failure message of `_upload_with_retry`:
`f"上傳失敗（重試 {max_retries} 次後）: {last_error}"`. -/
def fail_message (maxRetries : Nat) (err : String) : String :=
  "上傳失敗（重試 " ++ toString maxRetries ++ " 次後）: " ++ err

/-- The `for attempt in range(max_retries + 1)` loop of
`R2Uploader._upload_with_retry`, entered at attempt `i` with the current
`last_error`.  A returned pair ends the loop immediately; a raised exception
records the error and, when `attempt < max_retries`, sleeps
`retry_delay * 2 ** attempt` before the next attempt.  Returns the result,
the number of `_do_upload` calls made, and the backoff delays slept. -/
def upload_with_retry_go (maxRetries : Nat) (retryDelay : ℚ) (att : Nat → AttemptOutcome)
    (i : Nat) (lastError : String) : (Bool × String) × Nat × List ℚ :=
  if h : i < maxRetries + 1 then
    match att i with
    | AttemptOutcome.ret s m => ((s, m), 1, [])
    | AttemptOutcome.exc e =>
        let rest := upload_with_retry_go maxRetries retryDelay att (i + 1) e
        if i < maxRetries then (rest.1, rest.2.1 + 1, retryDelay * 2 ^ i :: rest.2.2)
        else (rest.1, rest.2.1 + 1, rest.2.2)
  else ((false, fail_message maxRetries lastError), 0, [])
termination_by (maxRetries + 1) - i

/-- `R2Uploader._upload_with_retry` (`last_error` starts as `""`). -/
def upload_with_retry (maxRetries : Nat) (retryDelay : ℚ) (att : Nat → AttemptOutcome) :
    (Bool × String) × Nat × List ℚ :=
  upload_with_retry_go maxRetries retryDelay att 0 ""

/-- The fields of a `FileRecord` that `upload_file` reads. -/
structure RecView where
  shortKey : Option String
  uuidKey : String
  fileExtension : String
  uploadUrl : String
deriving DecidableEq, Repr

/-- The configuration fields consumed by the uploader. -/
structure R2Config where
  customDomain : Option String
  endpointUrl : String
  bucketName : String
  maxRetries : Nat
  retryDelay : ℚ

/-- `R2Uploader._generate_file_url`: `customDomain/objectKey` when a custom
domain is set, else the derived `https://pub-...` public endpoint form. -/
def generate_file_url (cfg : R2Config) (objectKey : String) : String :=
  match cfg.customDomain with
  | some d => d ++ "/" ++ objectKey
  | none => (cfg.endpointUrl.replace "https://" "https://pub-") ++ "/" ++
      cfg.bucketName ++ "/" ++ objectKey

/-- Python truthiness of a nullable string field (`None` and `""` are falsy). -/
def truthyKey : Option String → Bool
  | some k => !(k == "")
  | none => false

/-- Outcome of `db_integration.store_file_record(temp_record)` inside
`upload_file`: success (the record now carries its minted key),
`DuplicateFileError`, or another propagating exception. -/
inductive StoreCallOutcome where
  | ok (rec : RecView)
  | duplicate
  | raise (err : String)
deriving DecidableEq, Repr

/-- The collaborators of one `upload_file` call, as oracles. -/
structure UploadDeps where
  checkDuplicate : Bool
  hasDbIntegration : Bool
  dupRecord : Option RecView
  storeOutcome : StoreCallOutcome
  dupRecordRequery : Option RecView
  contentKey : Option String
  att : Nat → AttemptOutcome

/-- `R2Uploader.upload_file`.  Returns `(success, message-or-URL, isDuplicate)`
together with the number of `_do_upload` (object-store PUT) calls made, or a
propagated exception.  The duplicate check runs only when both
`check_duplicate` and `db_integration` hold; a found duplicate reuses the
stored record's URL (reconstructed from `shortKey + extension` when the key is
truthy) and returns before any PUT. -/
def upload_file (cfg : R2Config) (deps : UploadDeps) (objectKey? : Option String) :
    Except String ((Bool × String × Bool) × Nat) :=
  match (if deps.checkDuplicate && deps.hasDbIntegration then deps.dupRecord else none) with
  | some r =>
      let url := if truthyKey r.shortKey then
          generate_file_url cfg (r.shortKey.getD "" ++ r.fileExtension)
        else r.uploadUrl
      Except.ok ((true, url, true), 0)
  | none =>
      let run : String → Except String ((Bool × String × Bool) × Nat) := fun _objectKey =>
        let res := upload_with_retry cfg.maxRetries cfg.retryDelay deps.att
        Except.ok ((res.1.1, res.1.2, false), res.2.1)
      match objectKey? with
      | some k => run k
      | none =>
          if deps.hasDbIntegration then
            match deps.storeOutcome with
            | StoreCallOutcome.ok rec =>
                if truthyKey rec.shortKey then
                  run (rec.shortKey.getD "" ++ rec.fileExtension)
                else run (rec.uuidKey ++ rec.fileExtension)
            | StoreCallOutcome.duplicate =>
                match deps.dupRecordRequery with
                | some er =>
                    if truthyKey er.shortKey then
                      Except.ok
                        ((true, generate_file_url cfg (er.shortKey.getD "" ++ er.fileExtension),
                          true), 0)
                    else Except.ok ((false, "檔案記錄衝突", false), 0)
                | none => Except.ok ((false, "檔案記錄衝突", false), 0)
            | StoreCallOutcome.raise e => Except.error e
          else
            match deps.contentKey with
            | some k => run k
            | none => Except.ok ((false, "無法生成檔案金鑰", false), 0)

/-! ## Definitions: schema lifecycle (`DatabaseManager._initialize_database`) -/

/-- `schema.SCHEMA_VERSION`. -/
def SCHEMA_VERSION : Nat := 1

/-- The words of `schema.RESERVED_KEYS`. -/
def RESERVED_KEYS : List String :=
  ["api", "admin", "www", "help", "test", "null", "temp", "data", "file",
   "user", "root", "sys", "app", "web", "img", "pic", "404", "500", "403", "401"]

/-- Persistent state touched by database initialization.  `versions` is the
`schema_version` table ordered most-recent-first (`ORDER BY applied_at DESC`);
`hasSchemaTable = false` means the table itself does not exist (fresh file). -/
structure DbInit where
  hasSchemaTable : Bool
  versions : List Nat
  hasCoreTables : Bool
  hasIndexes : Bool
  hasTriggers : Bool
  reserved : List String
  sequences : List SeqRow
deriving DecidableEq, Repr

/-- `SchemaVersionError`. -/
inductive SchemaErr where
  | schemaVersionError (stored supported : Nat)
deriving DecidableEq, Repr

/-- `_initialize_database` catches every exception and re-raises
`DatabaseError(f"資料庫初始化失敗: {e}")`, so a schema-version failure
surfaces wrapped. -/
inductive InitErr where
  | databaseError (cause : SchemaErr)
deriving DecidableEq, Repr

/-- `DatabaseManager._check_and_update_schema`.  When the `schema_version`
table does not exist the `sqlite3.OperationalError` is caught and the whole
check is skipped (in particular no version row is written).  When it exists
but holds no row, the current version is inserted.  A stored version above
the supported one raises `SchemaVersionError`; a lower one only logs. -/
def check_and_update_schema (st : DbInit) : Except SchemaErr DbInit :=
  if st.hasSchemaTable then
    match st.versions.head? with
    | some v =>
        if SCHEMA_VERSION < v then Except.error (SchemaErr.schemaVersionError v SCHEMA_VERSION)
        else Except.ok st
    | none => Except.ok { st with versions := [SCHEMA_VERSION] }
  else Except.ok st

/-- `_create_tables` (`CREATE TABLE IF NOT EXISTS ...`, including
`schema_version`). -/
def create_tables (st : DbInit) : DbInit :=
  { st with hasCoreTables := true, hasSchemaTable := true }

/-- `_create_indexes` (`CREATE INDEX IF NOT EXISTS ...`). -/
def create_indexes (st : DbInit) : DbInit := { st with hasIndexes := true }

/-- `_create_triggers` (`CREATE TRIGGER IF NOT EXISTS ...`). -/
def create_triggers (st : DbInit) : DbInit := { st with hasTriggers := true }

/-- `_initialize_base_data`: `INSERT OR IGNORE` each reserved word and the
initial length-4 sequence row with `max_possible = int(62**4 * 0.999)
= 14761559`. -/
def initialize_base_data (st : DbInit) : DbInit :=
  { st with
    reserved := RESERVED_KEYS.foldl
      (fun acc w => if acc.contains w then acc else acc ++ [w]) st.reserved,
    sequences :=
      if st.sequences.any (fun r => r.keyLength == 4) then st.sequences
      else st.sequences ++ [⟨4, 0, 14761559, false⟩] }

/-- The creation steps of `_initialize_database` after the schema check:
tables, indexes, triggers, base data. -/
def finalize_creation (st : DbInit) : DbInit :=
  initialize_base_data (create_triggers (create_indexes (create_tables st)))

/-- `DatabaseManager._initialize_database`: schema check, then the idempotent
creation steps, all in one transaction; any raised exception is wrapped into
`DatabaseError`. -/
def initialize_database (st : DbInit) : Except InitErr DbInit :=
  match check_and_update_schema st with
  | Except.error e => Except.error (InitErr.databaseError e)
  | Except.ok st1 => Except.ok (finalize_creation st1)

/-! ## Helper lemmas -/

lemma padded32_length (d : List Char) : (padded32 d).length = 32 := by
  unfold padded32
  split
  · simp only [List.length_append, List.length_replicate]
    omega
  · simp only [List.length_take]
    omega

lemma padded32_eq (d : List Char) :
    padded32 d = d.take 32 ++ List.replicate (32 - d.length) '0' := by
  unfold padded32
  split
  · rw [List.take_of_length_le (by omega)]
  · rw [show 32 - d.length = 0 by omega]
    simp

lemma chunkList_foldl (l : List Nat) :
    ∀ acc : List Nat, (chunkList l).foldl (fun a c => a ++ c) acc = acc ++ l := by
  induction l using chunkList.induct with
  | case1 => intro acc; simp [chunkList]
  | case2 l hne ih =>
      intro acc
      rw [chunkList, dif_neg hne]
      simp only [List.foldl_cons]
      rw [ih]
      simp [List.append_assoc, List.take_append_drop]

lemma hash_to_uuid_data (s : String) :
    (hash_to_uuid s).data = (padded32 s.data).take 8 ++
      '-' :: ((padded32 s.data).drop 8).take 4 ++
      '-' :: ((padded32 s.data).drop 12).take 4 ++
      '-' :: ((padded32 s.data).drop 16).take 4 ++
      '-' :: ((padded32 s.data).drop 20).take 12 := rfl

lemma string_length_data (s : String) : s.length = s.data.length := rfl

lemma split32 (h : List Char) (hh : h.length = 32) :
    h.take 8 ++ ((h.drop 8).take 4 ++ ((h.drop 12).take 4 ++
      ((h.drop 16).take 4 ++ (h.drop 20).take 12))) = h := by
  have e1 : h.take 12 = h.take 8 ++ (h.drop 8).take 4 := by
    simpa using List.take_add h 8 4
  have e2 : h.take 16 = h.take 12 ++ (h.drop 12).take 4 := by
    simpa using List.take_add h 12 4
  have e3 : h.take 20 = h.take 16 ++ (h.drop 16).take 4 := by
    simpa using List.take_add h 16 4
  have e4 : h.take 32 = h.take 20 ++ (h.drop 20).take 12 := by
    simpa using List.take_add h 20 12
  have e5 : h.take 32 = h := List.take_of_length_le (by omega)
  conv_rhs => rw [← e5, e4, e3, e2, e1]
  simp [List.append_assoc]

/-! ## Claim theorems -/

/-- **C5.** For every hex-digest string `d`, `hash_to_uuid` returns exactly the
first 32 characters of `d` (right-padded with `'0'` when `d` is shorter than
32) formatted with dashes into five groups of 8-4-4-4-12 characters, yielding
a 36-character identifier; the mapping is deterministic. -/
theorem c5_hash_to_uuid_format (d : String) :
    (hash_to_uuid d).length = 36 ∧
    (∃ g1 g2 g3 g4 g5 : List Char,
      (hash_to_uuid d).data = g1 ++ '-' :: g2 ++ '-' :: g3 ++ '-' :: g4 ++ '-' :: g5 ∧
      g1.length = 8 ∧ g2.length = 4 ∧ g3.length = 4 ∧ g4.length = 4 ∧ g5.length = 12 ∧
      g1 ++ (g2 ++ (g3 ++ (g4 ++ g5))) =
        d.data.take 32 ++ List.replicate (32 - d.data.length) '0') ∧
    (∀ d' : String, d = d' → hash_to_uuid d = hash_to_uuid d') := by
  have hlen : (padded32 d.data).length = 32 := padded32_length d.data
  refine ⟨?_, ?_, fun d' hd => by rw [hd]⟩
  · rw [string_length_data, hash_to_uuid_data]
    simp only [List.length_append, List.length_cons, List.length_take, List.length_drop, hlen]
    omega
  · refine ⟨(padded32 d.data).take 8, ((padded32 d.data).drop 8).take 4,
      ((padded32 d.data).drop 12).take 4, ((padded32 d.data).drop 16).take 4,
      ((padded32 d.data).drop 20).take 12, rfl, ?_, ?_, ?_, ?_, ?_, ?_⟩
    · simp only [List.length_take, hlen]; omega
    · simp only [List.length_take, List.length_drop, hlen]; omega
    · simp only [List.length_take, List.length_drop, hlen]; omega
    · simp only [List.length_take, List.length_drop, hlen]; omega
    · simp only [List.length_take, List.length_drop, hlen]; omega
    · rw [split32 (padded32 d.data) hlen]
      exact padded32_eq d.data

/-- **C7 counterexample.** An unreadable file does not make
`calculate_file_hash` fail with an `IOError`: the source catches the exception
and returns `None` (an ordinary `Except.ok none`), so the claim's error-path
sentence is false. -/
theorem c7_unreadable_returns_none :
    calculate_file_hash (fun _ => "") none = Except.ok none := rfl

/-- **C7 (amended).** `calculate_file_hash` streams the file in fixed-size
8192-byte chunks and, for every readable file, returns the digest of the full
content (the chunked updates are equivalent to hashing the whole content);
for a file that cannot be read, the exception is caught and `None` is
returned — no `IOError` propagates. -/
theorem c7_hash_streams_full_content (H : List Nat → String) (file : Option (List Nat))
    (content : List Nat) (hfile : file = some content) :
    calculate_file_hash H file = Except.ok (some (H content)) ∧
    calculate_file_hash H none = Except.ok none := by
  subst hfile
  refine ⟨?_, rfl⟩
  simp [calculate_file_hash, chunkList_foldl]

/-- Witness for `c7_hash_streams_full_content` at a concrete hasher and file. -/
theorem c7_hash_streams_full_content_witness :
    calculate_file_hash (fun l => toString l.length) (some [1, 2, 3]) =
      Except.ok (some (toString ([1, 2, 3] : List Nat).length)) ∧
    calculate_file_hash (fun l => toString l.length) none = Except.ok none :=
  c7_hash_streams_full_content (fun l => toString l.length) (some [1, 2, 3]) [1, 2, 3] rfl

lemma upload_with_retry_go_attempts (mr : Nat) (d : ℚ) (att : Nat → AttemptOutcome) :
    ∀ n i e, (mr + 1) - i ≤ n →
      (upload_with_retry_go mr d att i e).2.1 ≤ (mr + 1) - i := by
  intro n
  induction n with
  | zero =>
      intro i e hn
      rw [upload_with_retry_go, dif_neg (by omega)]
      simp
  | succ n ih =>
      intro i e hn
      by_cases hi : i < mr + 1
      · rw [upload_with_retry_go, dif_pos hi]
        cases hatt : att i with
        | ret s m => simp; omega
        | exc e' =>
            dsimp only
            have h2 := ih (i + 1) e' (by omega)
            by_cases hlt : i < mr
            · simp only [if_pos hlt]
              omega
            · simp only [if_neg hlt]
              omega
      · rw [upload_with_retry_go, dif_neg hi]
        simp

lemma upload_with_retry_go_success (mr : Nat) (d : ℚ) (att : Nat → AttemptOutcome)
    (k : Nat) (s : Bool) (m : String) (hk : k ≤ mr)
    (hs : att k = AttemptOutcome.ret s m)
    (hf : ∀ j, j < k → ∃ e, att j = AttemptOutcome.exc e) :
    ∀ n i e, i + n = k →
      upload_with_retry_go mr d att i e =
        ((s, m), n + 1, (List.range' i n).map (fun j => d * 2 ^ j)) := by
  intro n
  induction n with
  | zero =>
      intro i e hik
      have hik' : i = k := by omega
      subst hik'
      rw [upload_with_retry_go, dif_pos (by omega), hs]
      simp
  | succ n ih =>
      intro i e hik
      obtain ⟨e', he'⟩ := hf i (by omega)
      rw [upload_with_retry_go, dif_pos (by omega), he']
      dsimp only
      rw [ih (i + 1) e' (by omega)]
      have hi : i < mr := by omega
      simp only [if_pos hi, List.range'_succ, List.map_cons]

lemma upload_with_retry_go_all_fail (mr : Nat) (d : ℚ) (att : Nat → AttemptOutcome)
    (errs : Nat → String) (hf : ∀ j, j ≤ mr → att j = AttemptOutcome.exc (errs j)) :
    ∀ n i e, i + (n + 1) = mr + 1 →
      upload_with_retry_go mr d att i e =
        ((false, fail_message mr (errs mr)), n + 1,
          (List.range' i n).map (fun j => d * 2 ^ j)) := by
  intro n
  induction n with
  | zero =>
      intro i e hik
      have hieq : mr = i := by omega
      subst hieq
      rw [upload_with_retry_go, dif_pos (by omega), hf mr le_rfl]
      dsimp only
      rw [upload_with_retry_go, dif_neg (by omega)]
      simp
  | succ n ih =>
      intro i e hik
      have hi : i ≤ mr := by omega
      rw [upload_with_retry_go, dif_pos (by omega), hf i hi]
      dsimp only
      rw [ih (i + 1) (errs i) (by omega)]
      have hilt : i < mr := by omega
      simp only [if_pos hilt, List.range'_succ, List.map_cons]

/-- **C4.** `_upload_with_retry` with `max_retries = n` makes at most `n + 1`
`_do_upload` (PUT) attempts; after the failed attempt numbered `attempt`
(0-based) it waits `retry_delay * 2 ** attempt` when further attempts remain;
when attempts `0..k-1` fail and attempt `k ≤ n` succeeds, the overall result
is success carrying the file URL; when all `n + 1` attempts fail, the result
is failure whose message retains the error of the last attempt. -/
theorem c4_retry_convergence (n : Nat) (d : ℚ) (att : Nat → AttemptOutcome)
    (errs : Nat → String) (url : String) (k : Nat) :
    (upload_with_retry n d att).2.1 ≤ n + 1 ∧
    ((∀ j, j < k → att j = AttemptOutcome.exc (errs j)) → k ≤ n →
      att k = AttemptOutcome.ret true url →
      upload_with_retry n d att =
        ((true, url), k + 1, (List.range k).map (fun j => d * 2 ^ j))) ∧
    ((∀ j, j ≤ n → att j = AttemptOutcome.exc (errs j)) →
      upload_with_retry n d att =
        ((false, fail_message n (errs n)), n + 1, (List.range n).map (fun j => d * 2 ^ j))) := by
  refine ⟨?_, ?_, ?_⟩
  · simpa using upload_with_retry_go_attempts n d att (n + 1) 0 "" (by omega)
  · intro hfail hk hsucc
    have := upload_with_retry_go_success n d att k true url hk hsucc
      (fun j hj => ⟨errs j, hfail j hj⟩) k 0 "" (by omega)
    simpa [upload_with_retry, List.range_eq_range'] using this
  · intro hfail
    have := upload_with_retry_go_all_fail n d att errs hfail n 0 "" (by omega)
    simpa [upload_with_retry, List.range_eq_range'] using this

/-- Witness for `c4_retry_convergence`: two raising attempts followed by a
successful third, with `max_retries = 2`, and separately three raising
attempts everywhere. -/
theorem c4_retry_convergence_witness :
    upload_with_retry 2 1
        (fun j => if j < 2 then AttemptOutcome.exc (toString j)
          else AttemptOutcome.ret true "https://u") =
      ((true, "https://u"), 2 + 1, (List.range 2).map (fun j => (1 : ℚ) * 2 ^ j)) ∧
    upload_with_retry 2 1 (fun j => AttemptOutcome.exc (toString j)) =
      ((false, fail_message 2 (toString 2)), 2 + 1,
        (List.range 2).map (fun j => (1 : ℚ) * 2 ^ j)) := by
  constructor
  · exact (c4_retry_convergence 2 1
      (fun j => if j < 2 then AttemptOutcome.exc (toString j)
        else AttemptOutcome.ret true "https://u")
      (fun j => toString j) "https://u" 2).2.1
      (fun j hj => by simp [hj]) (by omega) (by norm_num)
  · exact (c4_retry_convergence 2 1 (fun j => AttemptOutcome.exc (toString j))
      (fun j => toString j) "https://u" 2).2.2 (fun j _ => rfl)

lemma store_file_record_spec (mints : Nat → String) (records : List FRecord) :
    ∀ n t rec, rec.shortKey = none → t + n = 4 → 1 ≤ n →
      (store_file_record mints records rec t).2.2 ≤ n ∧
      (∀ k, (store_file_record mints records rec t).2.1 = StoreResult.allocationFailed k →
        (store_file_record mints records rec t).1 = records ∧
        (store_file_record mints records rec t).2.2 = n) ∧
      (∀ stored, (store_file_record mints records rec t).2.1 = StoreResult.ok stored →
        (store_file_record mints records rec t).1 = records ++ [stored] ∧
        ∃ i, t ≤ i ∧ i ≤ 3 ∧ stored.shortKey = some (mints i)) := by
  intro n
  induction n with
  | zero =>
      intro t rec h ht hn
      exact absurd hn (by omega)
  | succ n ih =>
      intro t rec h ht hn
      rw [store_file_record, h]
      dsimp only
      cases hc : insert_conflict records { rec with shortKey := some (mints t) } with
      | none =>
          refine ⟨by simp, ?_, ?_⟩
          · intro k hk
            exact absurd hk (by simp)
          · intro stored hst
            simp only at hst
            injection hst with hst'
            subst hst'
            exact ⟨rfl, t, le_rfl, by omega, rfl⟩
      | some c =>
          cases c with
          | uuidKey =>
              refine ⟨by simp, ?_, ?_⟩
              · intro k hk; exact absurd hk (by simp)
              · intro stored hst; exact absurd hst (by simp)
          | sha512Hash =>
              refine ⟨by simp, ?_, ?_⟩
              · intro k hk; exact absurd hk (by simp)
              · intro stored hst; exact absurd hst (by simp)
          | shortKey =>
              by_cases h3 : 3 ≤ t
              · rw [dif_pos h3]
                refine ⟨by simp, ?_, ?_⟩
                · intro k _
                  exact ⟨rfl, by simp; omega⟩
                · intro stored hst; exact absurd hst (by simp)
              · rw [dif_neg h3]
                dsimp only
                obtain ⟨ihb, ihfail, ihok⟩ :=
                  ih (t + 1) { rec with shortKey := none } rfl (by omega) (by omega)
                refine ⟨by simpa using by omega, ?_, ?_⟩
                · intro k hk
                  obtain ⟨hrec, hcnt⟩ := ihfail k hk
                  exact ⟨hrec, by simp [hcnt]⟩
                · intro stored hst
                  obtain ⟨hrec, i, hti, hi3, hkey⟩ := ihok stored hst
                  exact ⟨hrec, i, by omega, hi3, hkey⟩

/-- **C2 counterexample.** A store whose every minted key collides with an
existing record's short key performs **4** total insert attempts (the initial
attempt plus three re-mint retries), refuting the claimed bound of 3; the run
ends in the `DatabaseError` ("短檔名生成失敗…") that the spec calls
`AllocationFailed`. -/
theorem c2_four_attempts_counterexample :
    (store_file_record (fun _ => "aaaa")
      [⟨"u0", "h0", some "aaaa", "active"⟩] ⟨"u1", "h1", none, "active"⟩ 0).2.2 = 4 ∧
    (store_file_record (fun _ => "aaaa")
      [⟨"u0", "h0", some "aaaa", "active"⟩] ⟨"u1", "h1", none, "active"⟩ 0).2.1 =
      StoreResult.allocationFailed "aaaa" ∧ ¬ (4 ≤ 3) := by
  refine ⟨?_, ?_, by omega⟩ <;>
    simp [store_file_record, insert_conflict]

/-- **C2 (amended).** When `FileRegistry.store`'s insert conflicts only on
`shortKey`, the registry clears the key, re-mints, and retries the whole
insert, making at most **4** total insert attempts (1 initial + 3 retries,
bounded by `_retry_count >= 3`); if every attempt collides it fails with
`DatabaseError` (the spec's `AllocationFailed`) after exactly 4 attempts and
no record is stored; a successful attempt stores the record under one of the
minted keys. -/
theorem c2_store_retry_bound (mints : Nat → String) (records : List FRecord)
    (rec : FRecord) (hkey : rec.shortKey = none) :
    (store_file_record mints records rec 0).2.2 ≤ 4 ∧
    (∀ k, (store_file_record mints records rec 0).2.1 = StoreResult.allocationFailed k →
      (store_file_record mints records rec 0).1 = records ∧
      (store_file_record mints records rec 0).2.2 = 4) ∧
    (∀ stored, (store_file_record mints records rec 0).2.1 = StoreResult.ok stored →
      (store_file_record mints records rec 0).1 = records ++ [stored] ∧
      ∃ i, i ≤ 3 ∧ stored.shortKey = some (mints i)) := by
  obtain ⟨hb, hfail, hok⟩ := store_file_record_spec mints records 4 0 rec hkey rfl (by omega)
  refine ⟨hb, hfail, ?_⟩
  intro stored hst
  obtain ⟨hrec, i, _, hi3, hk⟩ := hok stored hst
  exact ⟨hrec, i, hi3, hk⟩

/-- Witness for `c2_store_retry_bound`: a fresh record against an empty
registry stores at the first minted key in one attempt. -/
theorem c2_store_retry_bound_witness :
    (store_file_record (fun i => toString i) [] ⟨"u1", "h1", none, "active"⟩ 0).2.2 ≤ 4 ∧
    ((store_file_record (fun i => toString i) [] ⟨"u1", "h1", none, "active"⟩ 0).1 =
      [] ++ [⟨"u1", "h1", some (toString 0), "active"⟩] ∧
      ∃ i, i ≤ 3 ∧
        (⟨"u1", "h1", some (toString 0), "active"⟩ : FRecord).shortKey =
          some (toString i)) := by
  obtain ⟨hb, _, hok⟩ :=
    c2_store_retry_bound (fun i => toString i) [] ⟨"u1", "h1", none, "active"⟩ rfl
  exact ⟨hb, hok ⟨"u1", "h1", some (toString 0), "active"⟩
    (by simp [store_file_record, insert_conflict])⟩

/-- **C3.** For every `upload_file` call with duplicate checking enabled whose
content hash has an active record in the registry, the call returns success
with duplicate status and the URL reconstructed from `shortKey + extension`
when a short key is present (else the stored URL), and no object-store PUT
(`_do_upload`) is invoked (the reported PUT count is 0). -/
theorem c3_duplicate_short_circuit (cfg : R2Config) (deps : UploadDeps)
    (r : RecView) (objectKey? : Option String)
    (hcd : deps.checkDuplicate = true) (hdb : deps.hasDbIntegration = true)
    (hdup : deps.dupRecord = some r) :
    (∀ k, r.shortKey = some k → k ≠ "" →
      upload_file cfg deps objectKey? =
        Except.ok ((true, generate_file_url cfg (k ++ r.fileExtension), true), 0)) ∧
    (r.shortKey = none →
      upload_file cfg deps objectKey? = Except.ok ((true, r.uploadUrl, true), 0)) := by
  constructor
  · intro k hk hke
    unfold upload_file
    rw [hcd, hdb]
    simp [hdup, truthyKey, hk, hke]
  · intro hk
    unfold upload_file
    rw [hcd, hdb]
    simp [hdup, truthyKey, hk]

/-- Witness for `c3_duplicate_short_circuit` at a concrete configuration,
record, and dependency environment. -/
theorem c3_duplicate_short_circuit_witness :
    upload_file ⟨none, "https://e", "b", 3, 1⟩
      ⟨true, true, some ⟨some "abcd", "u", ".png", "https://old"⟩,
        StoreCallOutcome.duplicate, none, none, fun _ => AttemptOutcome.exc "x"⟩ none =
      Except.ok ((true,
        generate_file_url ⟨none, "https://e", "b", 3, 1⟩ ("abcd" ++ ".png"), true), 0) :=
  (c3_duplicate_short_circuit ⟨none, "https://e", "b", 3, 1⟩
      ⟨true, true, some ⟨some "abcd", "u", ".png", "https://old"⟩,
        StoreCallOutcome.duplicate, none, none, fun _ => AttemptOutcome.exc "x"⟩
      ⟨some "abcd", "u", ".png", "https://old"⟩ none rfl rfl rfl).1
    "abcd" rfl (by decide)

lemma foldl_insert_mem (ws : List String) :
    ∀ acc w, (w ∈ acc ∨ w ∈ ws) →
      w ∈ ws.foldl (fun acc w => if acc.contains w then acc else acc ++ [w]) acc := by
  induction ws with
  | nil =>
      intro acc w h
      simpa using h.resolve_right (by simp)
  | cons x xs ih =>
      intro acc w h
      simp only [List.foldl_cons]
      apply ih
      by_cases hx : acc.contains x
      · rw [if_pos hx]
        rcases h with h | h
        · exact Or.inl h
        · rcases List.mem_cons.mp h with rfl | h
          · exact Or.inl (by simpa using hx)
          · exact Or.inr h
      · rw [if_neg hx]
        rcases h with h | h
        · exact Or.inl (by simp [h])
        · rcases List.mem_cons.mp h with rfl | h
          · exact Or.inl (by simp)
          · exact Or.inr h

lemma foldl_insert_stable (ws : List String) :
    ∀ acc, (∀ w ∈ ws, w ∈ acc) →
      ws.foldl (fun acc w => if acc.contains w then acc else acc ++ [w]) acc = acc := by
  induction ws with
  | nil => intro acc _; rfl
  | cons x xs ih =>
      intro acc h
      have hx : acc.contains x = true := by simp [h x (by simp)]
      simp only [List.foldl_cons, if_pos hx]
      exact ih acc (fun w hw => h w (by simp [hw]))

lemma finalize_creation_reserved (st : DbInit) :
    (finalize_creation st).reserved =
      RESERVED_KEYS.foldl (fun acc w => if acc.contains w then acc else acc ++ [w])
        st.reserved := by
  simp only [finalize_creation, initialize_base_data, create_triggers, create_indexes,
    create_tables]

lemma finalize_creation_sequences (st : DbInit) :
    (finalize_creation st).sequences =
      (if st.sequences.any (fun r => r.keyLength == 4) then st.sequences
       else st.sequences ++ [⟨4, 0, 14761559, false⟩]) := by
  simp only [finalize_creation, initialize_base_data, create_triggers, create_indexes,
    create_tables]

lemma finalize_creation_reserved_mem (st : DbInit) (w : String) (hw : w ∈ RESERVED_KEYS) :
    w ∈ (finalize_creation st).reserved := by
  rw [finalize_creation_reserved]
  exact foldl_insert_mem RESERVED_KEYS st.reserved w (Or.inr hw)

lemma finalize_creation_row4 (st : DbInit) :
    ((finalize_creation st).sequences.any (fun r => r.keyLength == 4)) = true := by
  rw [finalize_creation_sequences]
  by_cases h : st.sequences.any (fun r => r.keyLength == 4)
  · simpa [h] using h
  · simp [h]

lemma finalize_creation_stable (y : DbInit)
    (hres : ∀ w ∈ RESERVED_KEYS, w ∈ y.reserved)
    (hseq : y.sequences.any (fun r => r.keyLength == 4) = true) :
    (finalize_creation y).reserved = y.reserved ∧
    (finalize_creation y).sequences = y.sequences := by
  constructor
  · rw [finalize_creation_reserved]
    exact foldl_insert_stable RESERVED_KEYS y.reserved hres
  · rw [finalize_creation_sequences, if_pos hseq]

lemma finalize_creation_versions (y : DbInit) :
    (finalize_creation y).versions = y.versions := rfl

lemma finalize_creation_flags (y : DbInit) :
    (finalize_creation y).hasSchemaTable = true ∧
    (finalize_creation y).hasCoreTables = true ∧
    (finalize_creation y).hasIndexes = true ∧
    (finalize_creation y).hasTriggers = true := ⟨rfl, rfl, rfl, rfl⟩

/-- **C8 counterexample.** On a truly fresh store (no `schema_version` table
yet), initialization succeeds and creates all tables, indexes, triggers and
seed data — but writes **no** schema-version row in that same initialization
(the `sqlite3.OperationalError` branch skips the insert and nothing after
table creation writes it), refuting the claim that the current version is
written. -/
theorem c8_fresh_store_version_not_written :
    (initialize_database ⟨false, [], false, false, false, [], []⟩).toOption.map
      DbInit.versions = some [] ∧
    (initialize_database ⟨false, [], false, false, false, [], []⟩).toOption.map
      DbInit.hasCoreTables = some true ∧
    (initialize_database ⟨false, [], false, false, false, [], []⟩).toOption.map
      DbInit.hasSchemaTable = some true ∧
    SCHEMA_VERSION ∉ ([] : List Nat) := by
  exact ⟨rfl, rfl, rfl, by simp⟩

/-- **C8 (amended).** At registry construction: a stored schema version above
the supported one makes construction fail (the `SchemaVersionError` surfaces
wrapped in `DatabaseError`) and nothing proceeds.  If the `schema_version`
table exists but holds no row, the current version is written and all tables,
indexes, triggers and seed data are created idempotently in the same
initialization.  On a truly fresh store, where the table itself is absent,
the version check is skipped: everything is created but no version row is
written during that initialization (re-running initialization leaves the
created tables and seed data unchanged). -/
theorem c8_schema_lifecycle (st : DbInit) :
    (∀ v, st.hasSchemaTable = true → st.versions.head? = some v → SCHEMA_VERSION < v →
      initialize_database st =
        Except.error (InitErr.databaseError (SchemaErr.schemaVersionError v SCHEMA_VERSION))) ∧
    (st.hasSchemaTable = true → st.versions.head? = none →
      ∃ st2, initialize_database st = Except.ok st2 ∧ st2.versions = [SCHEMA_VERSION] ∧
        st2.hasSchemaTable = true ∧ st2.hasCoreTables = true ∧ st2.hasIndexes = true ∧
        st2.hasTriggers = true ∧ (∀ w ∈ RESERVED_KEYS, w ∈ st2.reserved) ∧
        st2.sequences.any (fun r => r.keyLength == 4) = true) ∧
    (st.hasSchemaTable = false →
      ∃ st2, initialize_database st = Except.ok st2 ∧ st2.versions = st.versions ∧
        st2.hasSchemaTable = true ∧ st2.hasCoreTables = true ∧ st2.hasIndexes = true ∧
        st2.hasTriggers = true ∧ (∀ w ∈ RESERVED_KEYS, w ∈ st2.reserved) ∧
        st2.sequences.any (fun r => r.keyLength == 4) = true) ∧
    ((st.hasSchemaTable = false → st.versions = []) →
      ∀ st2, initialize_database st = Except.ok st2 →
        ∃ st3, initialize_database st2 = Except.ok st3 ∧
          st3.reserved = st2.reserved ∧ st3.sequences = st2.sequences ∧
          st3.hasCoreTables = true ∧ st3.hasIndexes = true ∧ st3.hasTriggers = true) := by
  refine ⟨?_, ?_, ?_, ?_⟩
  · intro v ht hv hlt
    unfold initialize_database check_and_update_schema
    rw [ht, hv]
    simp [hlt]
  · intro ht hv
    unfold initialize_database check_and_update_schema
    rw [ht, hv]
    dsimp only
    refine ⟨_, rfl, finalize_creation_versions _, (finalize_creation_flags _).1,
      (finalize_creation_flags _).2.1, (finalize_creation_flags _).2.2.1,
      (finalize_creation_flags _).2.2.2,
      fun w hw => finalize_creation_reserved_mem _ w hw, finalize_creation_row4 _⟩
  · intro ht
    unfold initialize_database check_and_update_schema
    rw [ht, if_neg (by simp : ¬ (false = true))]
    refine ⟨_, rfl, finalize_creation_versions _, (finalize_creation_flags _).1,
      (finalize_creation_flags _).2.1, (finalize_creation_flags _).2.2.1,
      (finalize_creation_flags _).2.2.2,
      fun w hw => finalize_creation_reserved_mem _ w hw, finalize_creation_row4 _⟩
  · intro hwf st2 hinit
    unfold initialize_database at hinit
    cases hcheck : check_and_update_schema st with
    | error e => rw [hcheck] at hinit; exact absurd hinit (by simp)
    | ok st1 =>
        rw [hcheck] at hinit
        have hst2 : finalize_creation st1 = st2 := by
          injection hinit
        have hres : ∀ w ∈ RESERVED_KEYS, w ∈ st2.reserved := by
          intro w hw
          rw [← hst2]
          exact finalize_creation_reserved_mem st1 w hw
        have hrow4 : st2.sequences.any (fun r => r.keyLength == 4) = true := by
          rw [← hst2]
          exact finalize_creation_row4 st1
        have htbl : st2.hasSchemaTable = true := by
          rw [← hst2]
          exact (finalize_creation_flags st1).1
        have hvers : st2.versions = st1.versions := by
          rw [← hst2]
          exact finalize_creation_versions st1
        unfold initialize_database check_and_update_schema
        rw [htbl, if_pos rfl]
        cases hv2 : st2.versions.head? with
        | none =>
            refine ⟨_, rfl, (finalize_creation_stable _ hres hrow4).1,
              (finalize_creation_stable _ hres hrow4).2, (finalize_creation_flags _).2.1,
              (finalize_creation_flags _).2.2.1, (finalize_creation_flags _).2.2.2⟩
        | some v =>
            have hvle : ¬ SCHEMA_VERSION < v := by
              unfold check_and_update_schema at hcheck
              by_cases hstt : st.hasSchemaTable
              · rw [if_pos hstt] at hcheck
                cases hsv : st.versions.head? with
                | none =>
                    rw [hsv] at hcheck
                    have h1 : st1 = { st with versions := [SCHEMA_VERSION] } := by
                      injection hcheck with h'
                      exact h'.symm
                    rw [h1] at hvers
                    rw [hvers] at hv2
                    simp at hv2
                    omega
                | some v0 =>
                    rw [hsv] at hcheck
                    dsimp only at hcheck
                    by_cases hlt : SCHEMA_VERSION < v0
                    · rw [if_pos hlt] at hcheck
                      exact absurd hcheck (by simp)
                    · rw [if_neg hlt] at hcheck
                      have h1 : st1 = st := by
                        injection hcheck with h'
                        exact h'.symm
                      rw [h1] at hvers
                      rw [hvers, hsv] at hv2
                      injection hv2 with hv2'
                      omega
              · rw [if_neg hstt] at hcheck
                have h1 : st1 = st := by
                  injection hcheck with h'
                  exact h'.symm
                have hemp : st.versions = [] := hwf (by simpa using hstt)
                rw [h1] at hvers
                rw [hvers, hemp] at hv2
                simp at hv2
            dsimp only
            rw [if_neg hvle]
            refine ⟨_, rfl, (finalize_creation_stable _ hres hrow4).1,
              (finalize_creation_stable _ hres hrow4).2, (finalize_creation_flags _).2.1,
              (finalize_creation_flags _).2.2.1, (finalize_creation_flags _).2.2.2⟩

/-- Witness for `c8_schema_lifecycle` at a concrete state: a store whose
`schema_version` table exists with stored version 2 (above the supported 1)
fails construction. -/
theorem c8_schema_lifecycle_witness :
    initialize_database ⟨true, [2], false, false, false, [], []⟩ =
      Except.error (InitErr.databaseError (SchemaErr.schemaVersionError 2 SCHEMA_VERSION)) :=
  (c8_schema_lifecycle ⟨true, [2], false, false, false, [], []⟩).1 2 rfl rfl (by decide)

lemma CHARSET_length : CHARSET.length = 62 := rfl

lemma generate_key_with_length_spec (length : Nat) (sh rb : Nat → Nat) :
    (generate_key_with_length length sh rb).length = length ∧
    ∀ c ∈ (generate_key_with_length length sh rb).data, c ∈ CHARSET := by
  constructor
  · rw [string_length_data]
    show ((List.range length).map _).length = length
    simp
  · intro c hc
    have hc' : c ∈ (List.range length).map (fun i =>
        CHARSET.getD (((sh i % 2 ^ 32) ^^^ (rb i % 2 ^ 32)) % CHARSET.length) ' ') := hc
    obtain ⟨i, _, rfl⟩ := List.mem_map.mp hc'
    have hlt : ((sh i % 2 ^ 32) ^^^ (rb i % 2 ^ 32)) % CHARSET.length < CHARSET.length :=
      Nat.mod_lt _ (by rw [CHARSET_length]; omega)
    rw [List.getD_eq_getElem CHARSET ' ' hlt]
    exact List.getElem_mem hlt

lemma find_free_key_spec (st : GenState) (gen : Nat → String) :
    ∀ fuel attempt k, find_free_key st gen attempt fuel = some k →
      (∃ a, k = gen a) ∧ is_reserved_key st k = false ∧ key_exists st k = false := by
  intro fuel
  induction fuel with
  | zero =>
      intro a k h
      exact absurd h (by simp [find_free_key])
  | succ fuel ih =>
      intro a k h
      rw [find_free_key] at h
      by_cases hr : is_reserved_key st (gen a)
      · rw [if_pos hr] at h
        exact ih (a + 1) k h
      · rw [if_neg hr] at h
        by_cases he : key_exists st (gen a)
        · rw [if_pos he] at h
          exact ih (a + 1) k h
        · rw [if_neg he] at h
          injection h with h'
          subst h'
          exact ⟨⟨a, rfl⟩, by simpa using hr, by simpa using he⟩

lemma exhaustedAt_mark (rows : List SeqRow) (marked : List Nat) (L : Nat)
    (h : exhaustedAt rows L) : exhaustedAt (mark_exhausted rows marked) L := by
  obtain ⟨r, hr, hL, hex⟩ := h
  refine ⟨(if marked.contains r.keyLength then { r with exhausted := true } else r),
    List.mem_map_of_mem _ hr, ?_, ?_⟩
  · split <;> simpa using hL
  · split <;> simp [hex]

lemma exhaustedAt_create (rows : List SeqRow) (len L : Nat)
    (h : exhaustedAt rows L) : exhaustedAt (create_new_length_sequence rows len) L := by
  obtain ⟨r, hr, hL, hex⟩ := h
  unfold create_new_length_sequence
  split
  · exact ⟨r, hr, hL, hex⟩
  · exact ⟨r, List.mem_append_left _ hr, hL, hex⟩

lemma exhaustedAt_increment (rows : List SeqRow) (len L : Nat)
    (h : exhaustedAt rows L) : exhaustedAt (increment_sequence rows len) L := by
  obtain ⟨r, hr, hL, hex⟩ := h
  unfold increment_sequence
  refine ⟨_, List.mem_map_of_mem _ hr, ?_, ?_⟩
  · dsimp only
    split <;> simpa using hL
  · dsimp only
    split <;> simp [hex]

lemma scan_select_some (rows : List SeqRow) :
    ∀ sel w marked, scan_select rows = (some (sel, w), marked) →
      ∃ pre r rest, rows = pre ++ r :: rest ∧ marked = pre.map SeqRow.keyLength ∧
        (∀ p ∈ pre, p.maxPossible * 17 ≤ p.currentSequence * 20) ∧
        r.currentSequence * 20 < r.maxPossible * 17 ∧ sel = r.keyLength ∧
        (w = false ↔ r.currentSequence * 5 < r.maxPossible * 4) := by
  induction rows with
  | nil =>
      intro sel w marked h
      exact absurd h (by simp [scan_select])
  | cons r rest ih =>
      intro sel w marked h
      rw [scan_select] at h
      by_cases h4 : r.currentSequence * 5 < r.maxPossible * 4
      · rw [if_pos h4] at h
        simp only [Prod.mk.injEq, Option.some.injEq] at h
        obtain ⟨⟨hsel, hw⟩, hm⟩ := h
        refine ⟨[], r, rest, rfl, by simp [hm.symm], by simp, by omega, hsel.symm, ?_⟩
        simp [hw.symm, h4]
      · rw [if_neg h4] at h
        by_cases h5 : r.currentSequence * 20 < r.maxPossible * 17
        · rw [if_pos h5] at h
          simp only [Prod.mk.injEq, Option.some.injEq] at h
          obtain ⟨⟨hsel, hw⟩, hm⟩ := h
          refine ⟨[], r, rest, rfl, by simp [hm.symm], by simp, h5, hsel.symm, ?_⟩
          simp [hw.symm, h4]
        · rw [if_neg h5] at h
          cases hrest : scan_select rest with
          | mk selr mr =>
              rw [hrest] at h
              dsimp only at h
              simp only [Prod.mk.injEq] at h
              obtain ⟨hsel, hm⟩ := h
              obtain ⟨pre, rr, rest', hsplit, hmm, hpre, hr85, hselr, hwr⟩ :=
                ih sel w mr (by rw [hrest, hsel])
              refine ⟨r :: pre, rr, rest', by simp [hsplit], ?_, ?_, hr85, hselr, hwr⟩
              · simp [hm.symm, hmm]
              · intro p hp
                rcases List.mem_cons.mp hp with rfl | hp
                · omega
                · exact hpre p hp

lemma scan_select_none (rows : List SeqRow) :
    ∀ marked, scan_select rows = (none, marked) →
      marked = rows.map SeqRow.keyLength ∧
      ∀ r ∈ rows, r.maxPossible * 17 ≤ r.currentSequence * 20 := by
  induction rows with
  | nil =>
      intro marked h
      simp [scan_select] at h
      simp [h]
  | cons r rest ih =>
      intro marked h
      rw [scan_select] at h
      by_cases h4 : r.currentSequence * 5 < r.maxPossible * 4
      · rw [if_pos h4] at h
        simp at h
      · rw [if_neg h4] at h
        by_cases h5 : r.currentSequence * 20 < r.maxPossible * 17
        · rw [if_pos h5] at h
          simp at h
        · rw [if_neg h5] at h
          cases hrest : scan_select rest with
          | mk selr mr =>
              rw [hrest] at h
              dsimp only at h
              simp only [Prod.mk.injEq] at h
              obtain ⟨hsel, hm⟩ := h
              obtain ⟨hmm, hall⟩ := ih mr (by rw [hrest, hsel])
              refine ⟨by simp [hm.symm, hmm], ?_⟩
              intro p hp
              rcases List.mem_cons.mp hp with rfl | hp
              · omega
              · exact hall p hp

lemma pairwise_lt_keyLength_eq {l : List SeqRow}
    (h : l.Pairwise (fun a b => a.keyLength < b.keyLength))
    {a b : SeqRow} (ha : a ∈ l) (hb : b ∈ l) (hab : a.keyLength = b.keyLength) : a = b := by
  induction l with
  | nil => cases ha
  | cons x xs ih =>
      obtain ⟨hx, hp⟩ := List.pairwise_cons.mp h
      rcases List.mem_cons.mp ha with rfl | ha' <;> rcases List.mem_cons.mp hb with rfl | hb'
      · rfl
      · exact absurd hab (by have := hx b hb'; omega)
      · exact absurd hab (by have := hx a ha'; omega)
      · exact ih hp ha' hb'

lemma le_max_key_length (rows : List SeqRow) (r : SeqRow) (hr : r ∈ rows) :
    r.keyLength ≤ max_key_length rows := by
  induction rows with
  | nil => cases hr
  | cons x xs ih =>
      show r.keyLength ≤ max x.keyLength (max_key_length xs)
      rcases List.mem_cons.mp hr with rfl | hr'
      · exact le_max_left _ _
      · exact le_trans (ih hr') (le_max_right _ _)

lemma max_key_length_mark (rows : List SeqRow) (marked : List Nat) :
    max_key_length (mark_exhausted rows marked) = max_key_length rows := by
  induction rows with
  | nil => rfl
  | cons r rest ih =>
      show max (if marked.contains r.keyLength then { r with exhausted := true }
          else r).keyLength (max_key_length (mark_exhausted rest marked)) =
        max r.keyLength (max_key_length rest)
      rw [ih]
      congr 1
      split <;> rfl

lemma mem_keyLength_mark (rows : List SeqRow) (marked : List Nat) (r : SeqRow)
    (hr : r ∈ rows) :
    ∃ r2 ∈ mark_exhausted rows marked, r2.keyLength = r.keyLength := by
  refine ⟨(if marked.contains r.keyLength then { r with exhausted := true } else r),
    List.mem_map_of_mem _ hr, ?_⟩
  split <;> rfl

lemma max_key_length_append (rows : List SeqRow) (x : SeqRow) :
    max_key_length rows ≤ max_key_length (rows ++ [x]) := by
  induction rows with
  | nil => simp [max_key_length]
  | cons r rest ih =>
      show max r.keyLength (max_key_length rest) ≤
        max r.keyLength (max_key_length (rest ++ [x]))
      exact max_le_max le_rfl ih

lemma max_key_length_create (rows : List SeqRow) (len : Nat) :
    max_key_length rows ≤ max_key_length (create_new_length_sequence rows len) := by
  unfold create_new_length_sequence
  split
  · exact le_rfl
  · exact max_key_length_append rows _

lemma get_current_length_some (rows : List SeqRow) (sel : Nat) (w : Bool)
    (marked : List Nat)
    (h : scan_select (rows.filter (fun r => !r.exhausted)) = (some (sel, w), marked)) :
    get_current_length rows = (sel, mark_exhausted rows marked) := by
  unfold get_current_length
  dsimp only
  rw [h]

lemma get_current_length_none (rows : List SeqRow) (marked : List Nat)
    (h : scan_select (rows.filter (fun r => !r.exhausted)) = (none, marked)) :
    get_current_length rows =
      ((if max_key_length (mark_exhausted rows marked) = 0 then 3
        else max_key_length (mark_exhausted rows marked)) + 1,
       create_new_length_sequence (mark_exhausted rows marked)
         ((if max_key_length (mark_exhausted rows marked) = 0 then 3
           else max_key_length (mark_exhausted rows marked)) + 1)) := by
  unfold get_current_length
  dsimp only
  rw [h]

lemma get_current_length_monotone (rows : List SeqRow) (L : Nat)
    (h : exhaustedAt rows L) : exhaustedAt (get_current_length rows).2 L := by
  cases hscan : scan_select (rows.filter (fun r => !r.exhausted)) with
  | mk selOpt marked =>
      cases selOpt with
      | some sw =>
          obtain ⟨sel, w⟩ := sw
          rw [get_current_length_some rows sel w marked hscan]
          exact exhaustedAt_mark rows marked L h
      | none =>
          rw [get_current_length_none rows marked hscan]
          exact exhaustedAt_create _ _ L (exhaustedAt_mark rows marked L h)

lemma get_current_length_not_exhausted (rows : List SeqRow)
    (hdist : rows.Pairwise (fun a b => a.keyLength < b.keyLength)) :
    ∀ r ∈ rows, r.exhausted = true → (get_current_length rows).1 ≠ r.keyLength := by
  intro r hr hex
  cases hscan : scan_select (rows.filter (fun x => !x.exhausted)) with
  | mk selOpt marked =>
      cases selOpt with
      | some sw =>
          obtain ⟨sel, w⟩ := sw
          rw [get_current_length_some rows sel w marked hscan]
          obtain ⟨pre, rr, rest, hsplit, _, _, _, hsel, _⟩ :=
            scan_select_some _ sel w marked hscan
          have hrrmem : rr ∈ rows.filter (fun x => !x.exhausted) := by
            rw [hsplit]
            simp
          have h1 := List.mem_filter.mp hrrmem
          intro hEq
          have heq2 : rr.keyLength = r.keyLength := by rw [← hsel]; exact hEq
          have hrreq := pairwise_lt_keyLength_eq hdist h1.1 hr heq2
          have h2 := h1.2
          rw [hrreq] at h2
          simp [hex] at h2
      | none =>
          rw [get_current_length_none rows marked hscan]
          intro hEq
          dsimp only at hEq
          have hle : r.keyLength ≤ max_key_length (mark_exhausted rows marked) := by
            rw [max_key_length_mark]
            exact le_max_key_length rows r hr
          by_cases hm : max_key_length (mark_exhausted rows marked) = 0
          · rw [if_pos hm] at hEq
            omega
          · rw [if_neg hm] at hEq
            omega

lemma get_current_length_max (rows : List SeqRow) (r : SeqRow) (hr : r ∈ rows) :
    r.keyLength ≤ max_key_length (get_current_length rows).2 := by
  cases hscan : scan_select (rows.filter (fun x => !x.exhausted)) with
  | mk selOpt marked =>
      cases selOpt with
      | some sw =>
          obtain ⟨sel, w⟩ := sw
          rw [get_current_length_some rows sel w marked hscan]
          show r.keyLength ≤ max_key_length (mark_exhausted rows marked)
          rw [max_key_length_mark]
          exact le_max_key_length rows r hr
      | none =>
          rw [get_current_length_none rows marked hscan]
          show r.keyLength ≤ max_key_length (create_new_length_sequence _ _)
          refine le_trans ?_ (max_key_length_create _ _)
          rw [max_key_length_mark]
          exact le_max_key_length rows r hr

lemma generate_short_key_ok (sh1 rb1 sh2 rb2 : Nat → Nat → Nat) (st : GenState) :
    ∀ k len, (generate_short_key sh1 rb1 sh2 rb2 st).1 = Except.ok (k, len) →
      k.length = len ∧ st.reserved.contains k = false ∧
      st.records.any (fun r => r.shortKey == some k) = false ∧
      (len = (get_current_length st.sequences).1 ∨
        (find_free_key { st with sequences := (get_current_length st.sequences).2 }
            (fun a => generate_key_with_length (get_current_length st.sequences).1
              (sh1 a) (rb1 a)) 0 100 = none ∧
          len = (if max_key_length (get_current_length st.sequences).2 = 0 then 3
            else max_key_length (get_current_length st.sequences).2) + 1)) := by
  intro k len h
  unfold generate_short_key at h
  cases hgcl : get_current_length st.sequences with
  | mk len1 seqs1 =>
      rw [hgcl] at h
      dsimp only at h
      split at h
      next k1 hf1 =>
        dsimp only at h
        injection h with h'
        injection h' with hk hlen
        subst hk
        subst hlen
        obtain ⟨⟨a, hka⟩, hres, hex⟩ := find_free_key_spec _ _ 100 0 k1 hf1
        refine ⟨?_, ?_, ?_, Or.inl (by simp [hgcl])⟩
        · rw [hka]
          exact (generate_key_with_length_spec len1 (sh1 a) (rb1 a)).1
        · simpa [is_reserved_key] using hres
        · simpa [key_exists] using hex
      next hf1 =>
        unfold upgrade_to_next_length at h
        dsimp only at h
        generalize hbase : (if max_key_length seqs1 = 0 then 3 else max_key_length seqs1)
          = base at h
        split at h
        · exact absurd h (by simp)
        · split at h
          next k2 hf2 =>
            dsimp only at h
            injection h with h'
            injection h' with hk hlen
            subst hk
            subst hlen
            obtain ⟨⟨a, hka⟩, hres, hex⟩ := find_free_key_spec _ _ 100 0 k2 hf2
            refine ⟨?_, ?_, ?_, Or.inr ⟨by simpa [hgcl] using hf1, by simp [hgcl, hbase]⟩⟩
            · rw [hka]
              exact (generate_key_with_length_spec _ (sh2 a) (rb2 a)).1
            · simpa [is_reserved_key] using hres
            · simpa [key_exists] using hex
          next hf2 =>
            exact absurd h (by simp)

lemma generate_short_key_monotone (sh1 rb1 sh2 rb2 : Nat → Nat → Nat) (st : GenState)
    (L : Nat) (h : exhaustedAt st.sequences L) :
    exhaustedAt (generate_short_key sh1 rb1 sh2 rb2 st).2.sequences L := by
  unfold generate_short_key
  cases hgcl : get_current_length st.sequences with
  | mk len1 seqs1 =>
      dsimp only
      have h1 : exhaustedAt seqs1 L := by
        have hmono := get_current_length_monotone st.sequences L h
        rw [hgcl] at hmono
        exact hmono
      split
      · exact exhaustedAt_increment _ _ _ h1
      · unfold upgrade_to_next_length
        dsimp only
        generalize (if max_key_length seqs1 = 0 then 3 else max_key_length seqs1) = base
        split
        · exact h1
        · split
          · exact exhaustedAt_increment _ _ _ (exhaustedAt_create _ _ _ h1)
          · exact exhaustedAt_create _ _ _ h1

/-- **C1.** For every mint call the active length is chosen by scanning the
non-exhausted `KeyLengthSequence` rows in ascending length order with
`usageRatio = currentSequence / maxPossible`: a scanned length with ratio
< 0.85 is selected (the near-capacity flag is set exactly when 0.80 ≤ ratio
< 0.85), every scanned length with ratio ≥ 0.85 is marked exhausted before
scanning continues, an exhausted length is never the selected one, the
exhausted flag is never cleared by any operation of a mint call, and a
successful mint never returns a length that was exhausted before the call. -/
theorem c1_active_length_policy (rows : List SeqRow) (st : GenState)
    (sh1 rb1 sh2 rb2 : Nat → Nat → Nat)
    (hdist : rows.Pairwise (fun a b => a.keyLength < b.keyLength))
    (hdistst : st.sequences.Pairwise (fun a b => a.keyLength < b.keyLength)) :
    (∀ sel w marked,
      scan_select (rows.filter (fun r => !r.exhausted)) = (some (sel, w), marked) →
      get_current_length rows = (sel, mark_exhausted rows marked) ∧
      ∃ pre r rest,
        rows.filter (fun r => !r.exhausted) = pre ++ r :: rest ∧
        marked = pre.map SeqRow.keyLength ∧
        (∀ p ∈ pre, p.maxPossible * 17 ≤ p.currentSequence * 20) ∧
        r.currentSequence * 20 < r.maxPossible * 17 ∧ sel = r.keyLength ∧
        (w = false ↔ r.currentSequence * 5 < r.maxPossible * 4)) ∧
    (∀ r ∈ rows, r.exhausted = true → (get_current_length rows).1 ≠ r.keyLength) ∧
    (∀ L, exhaustedAt rows L → exhaustedAt (get_current_length rows).2 L) ∧
    (∀ L, exhaustedAt st.sequences L →
      exhaustedAt (generate_short_key sh1 rb1 sh2 rb2 st).2.sequences L) ∧
    (∀ k len, (generate_short_key sh1 rb1 sh2 rb2 st).1 = Except.ok (k, len) →
      ¬ exhaustedAt st.sequences len) := by
  refine ⟨?_, get_current_length_not_exhausted rows hdist,
    fun L => get_current_length_monotone rows L,
    fun L => generate_short_key_monotone sh1 rb1 sh2 rb2 st L, ?_⟩
  · intro sel w marked hscan
    exact ⟨get_current_length_some rows sel w marked hscan,
      scan_select_some _ sel w marked hscan⟩
  · intro k len hok hexh
    obtain ⟨r, hr, hL, hex⟩ := hexh
    obtain ⟨_, _, _, hcase⟩ := generate_short_key_ok sh1 rb1 sh2 rb2 st k len hok
    rcases hcase with hphase1 | ⟨_, hup⟩
    · exact get_current_length_not_exhausted st.sequences hdistst r hr hex (by omega)
    · have hle := get_current_length_max st.sequences r hr
      by_cases hm : max_key_length (get_current_length st.sequences).2 = 0
      · rw [if_pos hm] at hup
        omega
      · rw [if_neg hm] at hup
        omega

/-- Witness for `c1_active_length_policy`: with lengths 4 (exhausted) and 5
(in use), the selected length is never length 4. -/
theorem c1_active_length_policy_witness :
    (get_current_length [⟨4, 0, 10, true⟩, ⟨5, 0, 10, false⟩]).1 ≠
      (⟨4, 0, 10, true⟩ : SeqRow).keyLength :=
  ((c1_active_length_policy [⟨4, 0, 10, true⟩, ⟨5, 0, 10, false⟩]
      ⟨[], [], []⟩ (fun _ _ => 0) (fun _ _ => 0) (fun _ _ => 0) (fun _ _ => 0)
      (by decide) (by decide)).2.1) ⟨4, 0, 10, true⟩ (by decide) rfl

set_option maxHeartbeats 1000000 in
/-- **C6 counterexample.** With lengths 4–12 all marked exhausted, the
all-exhausted path of `_get_current_length` creates length 13 with no ceiling
check, and the mint call returns a 13-character key — exceeding the claimed
hard ceiling of 12 (which is also hardcoded, not configurable). -/
theorem c6_ceiling_counterexample :
    (generate_short_key (fun _ _ => 0) (fun _ _ => 0) (fun _ _ => 0) (fun _ _ => 0)
      ⟨[⟨4, 1, 1, true⟩, ⟨5, 1, 1, true⟩, ⟨6, 1, 1, true⟩, ⟨7, 1, 1, true⟩,
        ⟨8, 1, 1, true⟩, ⟨9, 1, 1, true⟩, ⟨10, 1, 1, true⟩, ⟨11, 1, 1, true⟩,
        ⟨12, 1, 1, true⟩], [], []⟩).1 = Except.ok ("0000000000000", 13) ∧
    12 < 13 ∧ ("0000000000000" : String).length = 13 := by
  refine ⟨rfl, by omega, rfl⟩

/-- **C6 (amended).** The length ceiling is the hardcoded constant 12 of
`_upgrade_to_next_length` (not configurable), and is enforced only on the
collision-escalation path: when the 100 phase-1 candidates all fail and the
maximum existing length is already ≥ 12, the mint call raises `KeyExhausted`
(and raises it only in that situation); the all-exhausted escalation path in
`_get_current_length` performs no ceiling check, so a mint call can return a
key longer than 12 (see the counterexample). -/
theorem c6_ceiling_amended (sh1 rb1 sh2 rb2 : Nat → Nat → Nat) (st : GenState) :
    (12 ≤ max_key_length st.sequences →
      upgrade_to_next_length sh2 rb2 st = (Except.error MintError.exhausted, st)) ∧
    ((generate_short_key sh1 rb1 sh2 rb2 st).1 = Except.error MintError.exhausted →
      find_free_key { st with sequences := (get_current_length st.sequences).2 }
        (fun a => generate_key_with_length (get_current_length st.sequences).1
          (sh1 a) (rb1 a)) 0 100 = none ∧
      12 ≤ max_key_length (get_current_length st.sequences).2) := by
  constructor
  · intro h12
    unfold upgrade_to_next_length
    dsimp only
    rw [if_neg (show ¬ max_key_length st.sequences = 0 by omega), if_pos h12]
  · intro h
    unfold generate_short_key at h
    cases hgcl : get_current_length st.sequences with
    | mk len1 seqs1 =>
        rw [hgcl] at h
        dsimp only at h
        split at h
        next k1 hf1 => exact absurd h (by simp)
        next hf1 =>
          refine ⟨by simpa [hgcl] using hf1, ?_⟩
          unfold upgrade_to_next_length at h
          dsimp only at h
          by_cases hm : max_key_length seqs1 = 0
          · rw [if_pos hm] at h
            rw [if_neg (by omega : ¬ (12 ≤ 3))] at h
            split at h
            · exact absurd h (by simp)
            · exact absurd h (by simp)
          · rw [if_neg hm] at h
            by_cases h12 : 12 ≤ max_key_length seqs1
            · simpa [hgcl] using h12
            · rw [if_neg h12] at h
              split at h
              · exact absurd h (by simp)
              · exact absurd h (by simp)

/-- Witness for `c6_ceiling_amended`: with the maximum existing length already
12, the upgrade path raises `KeyExhausted` without creating a longer length. -/
theorem c6_ceiling_amended_witness :
    upgrade_to_next_length (fun _ _ => 0) (fun _ _ => 0) ⟨[⟨12, 0, 5, false⟩], [], []⟩ =
      (Except.error MintError.exhausted, ⟨[⟨12, 0, 5, false⟩], [], []⟩) :=
  (c6_ceiling_amended (fun _ _ => 0) (fun _ _ => 0) (fun _ _ => 0) (fun _ _ => 0)
    ⟨[⟨12, 0, 5, false⟩], [], []⟩).1 (by decide)

/-- **C9.** Every candidate produced by
`_generate_key_with_length(length, salt, attempt)` is a string of exactly
`length` characters, each drawn from the fixed 62-character alphabet of
digits, lowercase and uppercase letters; consequently every `(key, length)`
pair returned by `generate_short_key` satisfies `key.length = length`. -/
theorem c9_key_length_charset (length : Nat) (sh rb : Nat → Nat)
    (sh1 rb1 sh2 rb2 : Nat → Nat → Nat) (st : GenState) :
    (generate_key_with_length length sh rb).length = length ∧
    (∀ c ∈ (generate_key_with_length length sh rb).data, c ∈ CHARSET) ∧
    (∀ k len, (generate_short_key sh1 rb1 sh2 rb2 st).1 = Except.ok (k, len) →
      k.length = len) :=
  ⟨(generate_key_with_length_spec length sh rb).1,
   (generate_key_with_length_spec length sh rb).2,
   fun k len h => (generate_short_key_ok sh1 rb1 sh2 rb2 st k len h).1⟩

set_option maxHeartbeats 1000000 in
/-- Witness for `c9_key_length_charset`: a concrete mint on an empty registry
returns a 4-character key at length 4. -/
theorem c9_key_length_charset_witness :
    (generate_key_with_length 4 (fun _ => 0) (fun _ => 0)).length = 4 ∧
    ("0000" : String).length = 4 :=
  ⟨(c9_key_length_charset 4 (fun _ => 0) (fun _ => 0) (fun _ _ => 0) (fun _ _ => 0)
      (fun _ _ => 0) (fun _ _ => 0) ⟨[], [], []⟩).1,
   (c9_key_length_charset 4 (fun _ => 0) (fun _ => 0) (fun _ _ => 0) (fun _ _ => 0)
      (fun _ _ => 0) (fun _ _ => 0) ⟨[], [], []⟩).2.2 "0000" 4 rfl⟩

/-- **C10.** The allocator's existence pre-check (`_key_exists`) and the
unconditional `UNIQUE` constraint ignore record status, so a successful mint
never returns a short key already held by any existing record — active,
soft-deleted, or archived; by contrast, `check_short_key_exists` filters on
`status = 'active'` and misses a soft-deleted record's key. -/
theorem c10_no_key_reuse_any_status (sh1 rb1 sh2 rb2 : Nat → Nat → Nat) (st : GenState)
    (k : String) (len : Nat)
    (h : (generate_short_key sh1 rb1 sh2 rb2 st).1 = Except.ok (k, len)) :
    (∀ r ∈ st.records, r.shortKey ≠ some k) ∧
    key_exists ⟨[], [], [⟨"u", "h", some "abcd", "deleted"⟩]⟩ "abcd" = true ∧
    check_short_key_exists ⟨[], [], [⟨"u", "h", some "abcd", "deleted"⟩]⟩ "abcd" = false := by
  refine ⟨?_, rfl, rfl⟩
  have hex := (generate_short_key_ok sh1 rb1 sh2 rb2 st k len h).2.2.1
  intro r hr hcontra
  have htrue : st.records.any (fun r => r.shortKey == some k) = true :=
    List.any_eq_true.mpr ⟨r, hr, by simp [hcontra]⟩
  rw [htrue] at hex
  exact absurd hex (by simp)

set_option maxHeartbeats 1000000 in
/-- Witness for `c10_no_key_reuse_any_status`: minting against a registry
whose only record is soft-deleted with key "zzzz" yields a key distinct from
every stored key. -/
theorem c10_no_key_reuse_any_status_witness :
    (∀ r ∈ ([⟨"u", "h", some "zzzz", "deleted"⟩] : List FRecord),
      r.shortKey ≠ some "0000") ∧
    key_exists ⟨[], [], [⟨"u", "h", some "abcd", "deleted"⟩]⟩ "abcd" = true ∧
    check_short_key_exists ⟨[], [], [⟨"u", "h", some "abcd", "deleted"⟩]⟩ "abcd" = false :=
  c10_no_key_reuse_any_status (fun _ _ => 0) (fun _ _ => 0) (fun _ _ => 0) (fun _ _ => 0)
    ⟨[], [], [⟨"u", "h", some "zzzz", "deleted"⟩]⟩ "0000" 4 rfl

end UploadR2
